import Mathlib

/-!
Shallow embedding of the cosmos-sdk ORM table engine
(`x/group/internal/orm/types.go` and the `table` package: Builder, Table,
typeSafeIterator) over an ordered byte-keyed key-value store, together with
proofs about the claims of the specification.

Modelling conventions:
* Go byte slices become `List Nat`; `bytes.Compare` becomes `bytesCmp`.
* The external ordered KV store (`sdk.KVStore`) becomes a strictly sorted
  association list; `Iterator(start, end)` becomes an ordered range filter.
* Fallible Go functions returning `error` become `Except Err`/`Option Err`
  results; out-parameters (`dest`) become returned decoded payloads.
* `errors.Wrap`/`Wrapf` with a plain message keeps the error identity in Go
  (`errors.Is`), so a message-only wrap is modelled as the identity; the
  interceptor-index wrap (`"interceptor %d failed"`) is modelled structurally
  by `Err.interceptorFailed` because the index is observable.
-/

/-- Raw byte strings (Go `[]byte`); a `RowID` in the orm package. -/
abbrev RowID := List Nat

/-- Go `bytes.Compare`: lexicographic byte comparison where a proper
initial segment sorts first. -/
def bytesCmp : RowID → RowID → Ordering
  | [], [] => Ordering.eq
  | [], _ :: _ => Ordering.lt
  | _ :: _, [] => Ordering.gt
  | a :: as, b :: bs =>
    if a < b then Ordering.lt
    else if b < a then Ordering.gt
    else bytesCmp as bs

/-- Strict lexicographic order on byte strings, `bytes.Compare(a, b) < 0`. -/
def bytesLt (a b : RowID) : Bool :=
  match bytesCmp a b with
  | Ordering.lt => true
  | _ => false

/-- The ordered byte-keyed store (`sdk.KVStore`): an association list of
(key, value) entries, kept strictly sorted by key by the operations below. -/
abbrev KVStore := List (RowID × List Nat)

/-- `store.Set(key, value)`: ordered insert, replacing an existing entry. -/
def storeSet : KVStore → RowID → List Nat → KVStore
  | [], k, v => [(k, v)]
  | e :: rest, k, v =>
    match bytesCmp k e.1 with
    | Ordering.lt => (k, v) :: e :: rest
    | Ordering.eq => (k, v) :: rest
    | Ordering.gt => e :: storeSet rest k v

/-- `store.Delete(key)`: removes the entry at `key` if present. -/
def storeDelete (s : KVStore) (k : RowID) : KVStore :=
  s.filter (fun e => !(e.1 == k))

/-- `store.Iterator(start, end)` as the list of entries it visits, in
ascending key order: keys in `[start, end)`, a `none` bound meaning
unbounded (Go `nil`). -/
def storeRange (s : KVStore) (start stop : Option RowID) : List (RowID × List Nat) :=
  s.filter (fun e =>
    (match start with
     | none => true
     | some st => !bytesLt e.1 st) &&
    (match stop with
     | none => true
     | some en => bytesLt e.1 en))

/-- The store is strictly sorted by key (the ordered-store representation
invariant maintained by `storeSet`/`storeDelete`). -/
def StoreSorted (s : KVStore) : Prop :=
  List.Pairwise (fun a b => bytesLt a.1 b.1 = true) s

/-- Error kinds of the orm package (`ErrNotFound`, `ErrIteratorDone`, ...).
`custom` stands for opaque external errors (codec, validation, interceptor
payloads); `interceptorFailed i e` is `errors.Wrapf(e, "interceptor %d
failed", i)`. -/
inductive Err where
  | notFound
  | iteratorDone
  | iteratorInvalid
  | typeErr
  | uniqueConstraint
  | argument
  | indexKeyMaxLength
  | emptyKey
  | custom (n : Nat)
  | interceptorFailed (i : Nat) (e : Err)
deriving DecidableEq, Repr

example : bytesCmp [1, 2] [1, 2, 3] = Ordering.lt := by decide
example : bytesCmp [2] [1, 9] = Ordering.gt := by decide
example : storeSet [([1], [5])] [0, 3] [7] = [([0, 3], [7]), ([1], [5])] := by decide

/-- The external binary codec boundary (`codec.Codec`): `Marshal` on a
record payload and `Unmarshal` into a destination, both fallible. -/
structure Codec where
  marshal : Nat → Except Err (List Nat)
  unmarshal : List Nat → Except Err Nat

/-- A runtime `codec.ProtoMarshaler` value as seen through reflection:
`isPtr` is whether the dynamic value is a pointer, `ty` identifies the
record type (the pointee type when `isPtr`), `data` is the abstract record
payload, and `valid` is the outcome of `ValidateBasic` (`none` when the
value does not implement `Validateable` or validates successfully). -/
structure PObj where
  isPtr : Bool
  ty : Nat
  data : Nat
  valid : Option Err
deriving DecidableEq, Repr

/-- `assertCorrectType(model, obj)` from `orm/types.go`: `obj` must be a
pointer and its pointee type must be the table's model type. -/
def assertCorrectType (model : Nat) (obj : PObj) : Option Err :=
  if !obj.isPtr then some Err.typeErr
  else if model ≠ obj.ty then some Err.typeErr
  else none

/-- `assertValid(obj)` from the table package: run `ValidateBasic` when the
object implements `Validateable`. -/
def assertValid (obj : PObj) : Option Err := obj.valid

/-- The fresh destination `reflect.New(a.model).Interface().(ProtoMarshaler)`
allocated by `Update`/`Delete` to load the old value. -/
def freshModelDest (model : Nat) : PObj :=
  { isPtr := true, ty := model, data := 0, valid := none }

/-- Modelled from the spec: `PrefixRange(rowID)` (not under `src/`) turns a
RowID into iterator bounds covering exactly the keys that start with that
RowID, and `prefix.NewStore(store, pfx)` namespaces by prepending the
table's prefix to every key before delegating. Their composition
`prefix.NewStore(store, [pfx]).Iterator(PrefixRange(rowID))` therefore
visits, in ascending order, exactly the raw entries whose key extends
`[pfx] ++ rowID`; keys are reported with the namespace byte stripped. -/
def nsProbe (pfx : Nat) (s : KVStore) (rowID : RowID) : List (RowID × List Nat) :=
  (s.filter (fun e => ([pfx] ++ rowID).isPrefixOf e.1)).map
    (fun e => (e.1.drop 1, e.2))

/-- `NewTypeSafeRowGetter` from `orm/types.go` (as instantiated by the table
package with its one-byte prefix): empty-key check, type check, then a range
probe over `PrefixRange(rowID)` inside the namespace, decoding the first
valid entry. The populated `dest` is returned as the decoded payload. -/
def NewTypeSafeRowGetter (pfx : Nat) (model : Nat) (cdc : Codec)
    (store : KVStore) (rowID : RowID) (dest : PObj) : Except Err Nat :=
  if rowID.length = 0 then Except.error Err.argument
  else
    match assertCorrectType model dest with
    | some e => Except.error e
    | none =>
      match nsProbe pfx store rowID with
      | [] => Except.error Err.notFound
      | e :: _ => cdc.unmarshal e.2

/-- `AfterSaveInterceptor`: receives the raw store (so it may mutate it),
the rowID, the new value and the old value (or `nil`); returns the possibly
modified store and an optional error. -/
abbrev AfterSaveItc := KVStore → RowID → PObj → Option PObj → KVStore × Option Err

/-- `AfterDeleteInterceptor`: as `AfterSaveItc` but with only the removed
value. -/
abbrev AfterDeleteItc := KVStore → RowID → PObj → KVStore × Option Err

/-- The `for i, itc := range a.afterSave` loop shared by `Create`/`Update`:
runs interceptors in order from index `i`, stopping at the first error,
which is returned wrapped with its index; store mutations made by already
run interceptors persist. -/
def runAfterSave (rid : RowID) (nv : PObj) (ov : Option PObj) :
    List AfterSaveItc → Nat → KVStore → KVStore × Option Err
  | [], _, st => (st, none)
  | itc :: rest, i, st =>
    match itc st rid nv ov with
    | (st', none) => runAfterSave rid nv ov rest (i + 1) st'
    | (st', some e) => (st', some (Err.interceptorFailed i e))

/-- The `for i, itc := range a.afterDelete` loop of `Delete`. -/
def runAfterDelete (rid : RowID) (ov : PObj) :
    List AfterDeleteItc → Nat → KVStore → KVStore × Option Err
  | [], _, st => (st, none)
  | itc :: rest, i, st =>
    match itc st rid ov with
    | (st', none) => runAfterDelete rid ov rest (i + 1) st'
    | (st', some e) => (st', some (Err.interceptorFailed i e))

/-- The `Table` struct of the table package. -/
structure Table where
  model : Nat
  pfx : Nat
  afterSave : List AfterSaveItc
  afterDelete : List AfterDeleteItc
  cdc : Codec

/-- `Table.Create`: type check, self-validation, marshal, unconditional
namespaced write (no existence or empty-key check), then the after-save
interceptor chain with `oldValue = nil`. -/
def Table.Create (a : Table) (store : KVStore) (rowID : RowID) (obj : PObj) :
    KVStore × Option Err :=
  match assertCorrectType a.model obj with
  | some e => (store, some e)
  | none =>
    match assertValid obj with
    | some e => (store, some e)
    | none =>
      match a.cdc.marshal obj.data with
      | Except.error e => (store, some e)
      | Except.ok v =>
        runAfterSave rowID obj none a.afterSave 0
          (storeSet store ([a.pfx] ++ rowID) v)

/-- `Table.GetOne`: delegates to the type-safe row getter. -/
def Table.GetOne (a : Table) (store : KVStore) (rowID : RowID) (dest : PObj) :
    Except Err Nat :=
  NewTypeSafeRowGetter a.pfx a.model a.cdc store rowID dest

/-- `Table.Update`: type check, self-validation, load of the old value via
`GetOne` (failing with `ErrNotFound` before any write when absent), marshal,
namespaced overwrite, then the after-save chain with the old value. -/
def Table.Update (a : Table) (store : KVStore) (rowID : RowID) (newValue : PObj) :
    KVStore × Option Err :=
  match assertCorrectType a.model newValue with
  | some e => (store, some e)
  | none =>
    match assertValid newValue with
    | some e => (store, some e)
    | none =>
      match a.GetOne store rowID (freshModelDest a.model) with
      | Except.error e => (store, some e)
      | Except.ok od =>
        match a.cdc.marshal newValue.data with
        | Except.error e => (store, some e)
        | Except.ok v =>
          runAfterSave rowID newValue (some { freshModelDest a.model with data := od })
            a.afterSave 0 (storeSet store ([a.pfx] ++ rowID) v)

/-- `Table.Delete`: load of the old value via `GetOne` (failing with
`ErrNotFound` before any mutation when absent), namespaced delete, then the
after-delete chain with the removed value. -/
def Table.Delete (a : Table) (store : KVStore) (rowID : RowID) :
    KVStore × Option Err :=
  match a.GetOne store rowID (freshModelDest a.model) with
  | Except.error e => (store, some e)
  | Except.ok od =>
    runAfterDelete rowID { freshModelDest a.model with data := od }
      a.afterDelete 0 (storeDelete store ([a.pfx] ++ rowID))

/-- `Table.Has`: validity of the first entry of the namespaced range probe
over `PrefixRange(rowID)`; no decode, no error. -/
def Table.Has (a : Table) (store : KVStore) (rowID : RowID) : Bool :=
  !(nsProbe a.pfx store rowID).isEmpty

example :
    (Table.mk 0 1 [] [] (Codec.mk (fun d => Except.ok [d]) (fun _ => Except.ok 0))).Has
      [([1, 7], [3])] [7] = true := by decide

/-- The `Iterator` values produced by the scans: `invalid` is the
always-invalid iterator returned on a failed range check (modelled from the
spec: `NewInvalidIterator`, not under `src/`, is "a distinguished
always-invalid/always-done variant" whose `LoadNext` fails with
`IteratorInvalid`); `typeSafe` is `typeSafeIterator`, holding the remaining
raw cursor entries and the data of its type-safe row getter. -/
inductive TableIterator where
  | invalid
  | typeSafe (pfx : Nat) (model : Nat) (cdc : Codec)
      (entries : List (RowID × List Nat))

/-- `typeSafeIterator.LoadNext`: if the raw cursor is exhausted, fail with
`ErrIteratorDone`; otherwise take the current raw key, advance, and load it
as a rowID through the type-safe row getter. Returns the advanced iterator,
the returned rowID (returned even when the row getter fails) and the row
getter's result. -/
def TableIterator.loadNext (store : KVStore) (dest : PObj) :
    TableIterator → TableIterator × Option RowID × Except Err Nat
  | TableIterator.invalid =>
    (TableIterator.invalid, none, Except.error Err.iteratorInvalid)
  | TableIterator.typeSafe pfx model cdc [] =>
    (TableIterator.typeSafe pfx model cdc [], none, Except.error Err.iteratorDone)
  | TableIterator.typeSafe pfx model cdc (e :: rest) =>
    (TableIterator.typeSafe pfx model cdc rest, some e.1,
      NewTypeSafeRowGetter pfx model cdc store e.1 dest)

/-- The raw keys an iterator will visit, in visiting order. -/
def iterKeys : TableIterator → List RowID
  | TableIterator.invalid => []
  | TableIterator.typeSafe _ _ _ entries => entries.map (fun e => e.1)

/-- `Table.PrefixScan`: when both bounds are non-nil, requires
`bytes.Compare(start, end) < 0`, otherwise fails with `ErrArgument` and the
invalid iterator; else a type-safe iterator over `store.Iterator(start, end)`
on the RAW store (the table prefix is not applied to the cursor, only to the
row getter). -/
def Table.PrefixScan (a : Table) (store : KVStore) (start stop : Option RowID) :
    TableIterator × Option Err :=
  match start, stop with
  | some st, some en =>
    if bytesCmp st en ≠ Ordering.lt then
      (TableIterator.invalid, some Err.argument)
    else
      (TableIterator.typeSafe a.pfx a.model a.cdc (storeRange store start stop), none)
  | _, _ =>
    (TableIterator.typeSafe a.pfx a.model a.cdc (storeRange store start stop), none)

/-- `Table.ReversePrefixScan`: as `PrefixScan` but over
`store.ReverseIterator(start, end)`, i.e. the same raw range in descending
order. -/
def Table.ReversePrefixScan (a : Table) (store : KVStore) (start stop : Option RowID) :
    TableIterator × Option Err :=
  match start, stop with
  | some st, some en =>
    if bytesCmp st en ≠ Ordering.lt then
      (TableIterator.invalid, some Err.argument)
    else
      (TableIterator.typeSafe a.pfx a.model a.cdc (storeRange store start stop).reverse, none)
  | _, _ =>
    (TableIterator.typeSafe a.pfx a.model a.cdc (storeRange store start stop).reverse, none)

/-- The `IndexKeyCodec` collaborator of the builder: opaque here, only its
presence (non-nilness) matters to the code under verification. -/
abbrev IndexKeyCodec := Unit

/-- The `Builder` struct of the table package. -/
structure Builder where
  model : Nat
  prefixData : Nat
  indexKeyCodec : IndexKeyCodec
  afterSave : List AfterSaveItc
  afterDelete : List AfterDeleteItc
  cdc : Option Codec

/-- `NewTableBuilder(prefixData, model, idxKeyCodec, cdc)`: panics (modelled
as `Except.error` with the panic message) when `model` is nil and when
`idxKeyCodec` is nil; `cdc` is not checked. The model type is
`reflect.TypeOf(model)`, dereferenced once when it is a pointer type. -/
def NewTableBuilder (prefixData : Nat) (model : Option PObj)
    (idxKeyCodec : Option IndexKeyCodec) (cdc : Option Codec) :
    Except String Builder :=
  match model with
  | none => Except.error "Model must not be nil"
  | some m =>
    match idxKeyCodec with
    | none => Except.error "IndexKeyCodec must not be nil"
    | some idx =>
      Except.ok
        { model := m.ty, prefixData := prefixData, indexKeyCodec := idx,
          afterSave := [], afterDelete := [], cdc := cdc }

/-- A concrete codec for witnesses: records are single-byte payloads. -/
def cdc0 : Codec where
  marshal := fun d => Except.ok [d]
  unmarshal := fun bs =>
    match bs with
    | [d] => Except.ok d
    | _ => Except.error (Err.custom 0)

/-- A concrete table for witnesses: model type 0, namespace prefix byte 1,
no interceptors. -/
def t0 : Table := { model := 0, pfx := 1, afterSave := [], afterDelete := [], cdc := cdc0 }

/-- A concrete valid record of `t0`'s model type with payload 5. -/
def obj0 : PObj := { isPtr := true, ty := 0, data := 5, valid := none }

/-- A concrete well-typed destination for `t0`. -/
def dest0 : PObj := { isPtr := true, ty := 0, data := 0, valid := none }

example : t0.Create [] [2] obj0 = ([([1, 2], [5])], none) := by decide
/-- Equality of `Except` results is decidable componentwise; needed so that
witnesses can be checked by `decide`. -/
instance : DecidableEq (Except Err Nat) := fun a b =>
  match a, b with
  | Except.error e1, Except.error e2 =>
    if h : e1 = e2 then isTrue (by rw [h]) else
      isFalse (by intro hc; cases hc; exact h rfl)
  | Except.error _, Except.ok _ => isFalse (by intro hc; cases hc)
  | Except.ok _, Except.error _ => isFalse (by intro hc; cases hc)
  | Except.ok v1, Except.ok v2 =>
    if h : v1 = v2 then isTrue (by rw [h]) else
      isFalse (by intro hc; cases hc; exact h rfl)

example : t0.GetOne [([1, 2], [5])] [2] dest0 = Except.ok 5 := by decide
example : t0.Has [([1, 2], [5])] [2] = true := by decide
example : t0.Delete [([1, 2], [5])] [2] = ([], none) := by decide
example : t0.Update [] [2] obj0 = ([], some Err.notFound) := by decide

theorem bytesCmp_self (a : RowID) : bytesCmp a a = Ordering.eq := by
  induction a with
  | nil => rfl
  | cons x xs ih => simp [bytesCmp, ih]

theorem bytesCmp_eq_iff {a b : RowID} : bytesCmp a b = Ordering.eq ↔ a = b := by
  induction a generalizing b with
  | nil => cases b <;> simp [bytesCmp]
  | cons x xs ih =>
    cases b with
    | nil => simp [bytesCmp]
    | cons y ys =>
      by_cases hxy : x < y
      · simp [bytesCmp, hxy]
        omega
      · by_cases hyx : y < x
        · simp [bytesCmp, hxy, hyx]
          omega
        · have hxyeq : x = y := by omega
          subst hxyeq
          simp [bytesCmp, hxy, hyx, ih]

theorem bytesCmp_gt_iff {a b : RowID} :
    bytesCmp a b = Ordering.gt ↔ bytesCmp b a = Ordering.lt := by
  induction a generalizing b with
  | nil => cases b <;> simp [bytesCmp]
  | cons x xs ih =>
    cases b with
    | nil => simp [bytesCmp]
    | cons y ys =>
      by_cases hxy : x < y
      · have hyx : ¬ y < x := by omega
        simp [bytesCmp, hxy, hyx]
      · by_cases hyx : y < x
        · simp [bytesCmp, hxy, hyx]
        · simp [bytesCmp, hxy, hyx, ih]

theorem bytesCmp_lt_trans {a : RowID} : ∀ {b c : RowID},
    bytesCmp a b = Ordering.lt → bytesCmp b c = Ordering.lt →
    bytesCmp a c = Ordering.lt := by
  induction a with
  | nil =>
    intro b c h1 h2
    cases c with
    | cons y ys => rfl
    | nil =>
      cases b with
      | nil => simp [bytesCmp] at h1
      | cons z zs => simp [bytesCmp] at h2
  | cons x xs ih =>
    intro b c h1 h2
    cases b with
    | nil => simp [bytesCmp] at h1
    | cons z zs =>
      cases c with
      | nil => simp [bytesCmp] at h2
      | cons y ys =>
        rcases Nat.lt_trichotomy x z with hxz | hxz | hxz
        · rcases Nat.lt_trichotomy z y with hzy | hzy | hzy
          · have hxy : x < y := Nat.lt_trans hxz hzy
            simp [bytesCmp, hxy]
          · subst hzy
            simp [bytesCmp, hxz]
          · have h1' : ¬ z < y := by omega
            simp [bytesCmp, h1', hzy] at h2
        · subst hxz
          have hxx : ¬ x < x := by omega
          simp only [bytesCmp, if_neg hxx] at h1 h2 ⊢
          rcases Nat.lt_trichotomy x y with hxy | hxy | hxy
          · simp [hxy]
          · subst hxy
            simp only [if_neg hxx] at h1 h2 ⊢
            exact ih h1 h2
          · have h1' : ¬ x < y := by omega
            simp [h1', hxy] at h2
        · have h1' : ¬ x < z := by omega
          simp [bytesCmp, h1', hxz] at h1

theorem bytesLt_iff {a b : RowID} : bytesLt a b = true ↔ bytesCmp a b = Ordering.lt := by
  cases h : bytesCmp a b <;> simp [bytesLt, h]

theorem bytesLt_irrefl (a : RowID) : bytesLt a a = false := by
  simp [bytesLt, bytesCmp_self]

theorem bytesLt_trans {a b c : RowID} (h1 : bytesLt a b = true)
    (h2 : bytesLt b c = true) : bytesLt a c = true := by
  rw [bytesLt_iff] at h1 h2 ⊢
  exact bytesCmp_lt_trans h1 h2

theorem bytesLt_asymm {a b : RowID} (h : bytesLt a b = true) :
    bytesLt b a = false := by
  rw [bytesLt_iff] at h
  have hgt := bytesCmp_gt_iff.mpr h
  simp [bytesLt, hgt]

theorem isPrefixOf_self (a : RowID) : a.isPrefixOf a = true := by
  induction a with
  | nil => rfl
  | cons x xs ih => simp [List.isPrefixOf, ih]

theorem isPrefixOf_not_lt {l m : RowID} (h : l.isPrefixOf m = true) :
    bytesLt m l = false := by
  induction l generalizing m with
  | nil =>
    cases m with
    | nil => simp [bytesLt, bytesCmp]
    | cons y ys => simp [bytesLt, bytesCmp]
  | cons x xs ih =>
    cases m with
    | nil => simp [List.isPrefixOf] at h
    | cons y ys =>
      simp only [List.isPrefixOf, Bool.and_eq_true, beq_iff_eq] at h
      obtain ⟨rfl, hrest⟩ := h
      have hys := ih hrest
      simp only [bytesLt, bytesCmp, if_neg (Nat.lt_irrefl x)] at hys ⊢
      exact hys

theorem mem_storeSet {s : KVStore} {k : RowID} {v : List Nat}
    {e : RowID × List Nat} (h : e ∈ storeSet s k v) : e = (k, v) ∨ e ∈ s := by
  induction s with
  | nil => simpa [storeSet] using h
  | cons f rest ih =>
    simp only [storeSet] at h
    split at h
    · rcases List.mem_cons.mp h with rfl | h'
      · exact Or.inl rfl
      · exact Or.inr h'
    · rcases List.mem_cons.mp h with rfl | h'
      · exact Or.inl rfl
      · exact Or.inr (List.mem_cons_of_mem _ h')
    · rcases List.mem_cons.mp h with rfl | h'
      · exact Or.inr (List.mem_cons_self _ _)
      · rcases ih h' with h'' | h''
        · exact Or.inl h''
        · exact Or.inr (List.mem_cons_of_mem _ h'')

theorem self_mem_storeSet (s : KVStore) (k : RowID) (v : List Nat) :
    (k, v) ∈ storeSet s k v := by
  induction s with
  | nil => simp [storeSet]
  | cons f rest ih =>
    simp only [storeSet]
    split
    · exact List.mem_cons_self _ _
    · exact List.mem_cons_self _ _
    · exact List.mem_cons_of_mem _ ih

theorem storeSet_sorted {s : KVStore} (hs : StoreSorted s) (k : RowID)
    (v : List Nat) : StoreSorted (storeSet s k v) := by
  induction s with
  | nil => simp [storeSet, StoreSorted]
  | cons f rest ih =>
    rw [StoreSorted, List.pairwise_cons] at hs
    obtain ⟨hf, hrest⟩ := hs
    simp only [storeSet]
    split
    case _ hc =>
      rw [StoreSorted, List.pairwise_cons]
      refine ⟨?_, ?_⟩
      · intro e he
        rcases List.mem_cons.mp he with rfl | he'
        · exact bytesLt_iff.mpr hc
        · exact bytesLt_trans (bytesLt_iff.mpr hc) (hf e he')
      · rw [StoreSorted] at *
        exact List.pairwise_cons.mpr ⟨hf, hrest⟩
    case _ hc =>
      have hk : k = f.1 := bytesCmp_eq_iff.mp hc
      rw [StoreSorted, List.pairwise_cons]
      refine ⟨?_, hrest⟩
      intro e he
      rw [hk]
      exact hf e he
    case _ hc =>
      rw [StoreSorted, List.pairwise_cons]
      refine ⟨?_, ih hrest⟩
      intro e he
      rcases mem_storeSet he with rfl | he'
      · exact bytesLt_iff.mpr (bytesCmp_gt_iff.mp hc)
      · exact hf e he'

theorem sorted_filter_head {s : KVStore} {kk : RowID} {v : List Nat}
    (hs : StoreSorted s) (hmem : (kk, v) ∈ s) :
    (s.filter (fun e => kk.isPrefixOf e.1)).head? = some (kk, v) := by
  induction s with
  | nil => cases hmem
  | cons f rest ih =>
    rw [StoreSorted, List.pairwise_cons] at hs
    obtain ⟨hf, hrest⟩ := hs
    by_cases hpf : kk.isPrefixOf f.1 = true
    · have hfilter : List.filter (fun e => kk.isPrefixOf e.1) (f :: rest)
          = f :: List.filter (fun e => kk.isPrefixOf e.1) rest := by
        simp [List.filter_cons, hpf]
      rw [hfilter]
      rcases List.mem_cons.mp hmem with heq | hmem'
      · cases heq
        rfl
      · have hlt : bytesLt f.1 kk = true := hf (kk, v) hmem'
        have hnlt := isPrefixOf_not_lt hpf
        rw [hnlt] at hlt
        cases hlt
    · have hmem' : (kk, v) ∈ rest := by
        rcases List.mem_cons.mp hmem with heq | h'
        · exfalso
          apply hpf
          cases heq
          exact isPrefixOf_self kk
        · exact h'
      have hfilter : List.filter (fun e => kk.isPrefixOf e.1) (f :: rest)
          = List.filter (fun e => kk.isPrefixOf e.1) rest := by
        simp [List.filter_cons, hpf]
      rw [hfilter]
      exact ih hrest hmem'

theorem nsProbe_storeSet_head {s : KVStore} (hs : StoreSorted s) (pfx : Nat)
    (k : RowID) (v : List Nat) :
    (nsProbe pfx (storeSet s ([pfx] ++ k) v) k).head? = some (k, v) := by
  unfold nsProbe
  rw [List.head?_map]
  rw [sorted_filter_head (storeSet_sorted hs ([pfx] ++ k) v)
    (self_mem_storeSet s ([pfx] ++ k) v)]
  rfl

theorem runAfterSave_preserving {l : List AfterSaveItc} {rid : RowID} {nv : PObj}
    {ov : Option PObj}
    (h : ∀ itc ∈ l, ∀ st, itc st rid nv ov = (st, none)) (i : Nat) (st : KVStore) :
    runAfterSave rid nv ov l i st = (st, none) := by
  induction l generalizing i st with
  | nil => rfl
  | cons itc rest ih =>
    simp only [runAfterSave]
    rw [h itc (List.mem_cons_self _ _) st]
    exact ih (fun itc' hm => h itc' (List.mem_cons_of_mem _ hm)) (i + 1) st

theorem runAfterDelete_preserving {l : List AfterDeleteItc} {rid : RowID} {ov : PObj}
    (h : ∀ itc ∈ l, ∀ st, itc st rid ov = (st, none)) (i : Nat) (st : KVStore) :
    runAfterDelete rid ov l i st = (st, none) := by
  induction l generalizing i st with
  | nil => rfl
  | cons itc rest ih =>
    simp only [runAfterDelete]
    rw [h itc (List.mem_cons_self _ _) st]
    exact ih (fun itc' hm => h itc' (List.mem_cons_of_mem _ hm)) (i + 1) st

/-- The store threaded through a non-failing run of after-save interceptors
(each interceptor receives the store its predecessors produced). -/
def saveChainStore (rid : RowID) (nv : PObj) (ov : Option PObj)
    (l : List AfterSaveItc) (st : KVStore) : KVStore :=
  l.foldl (fun s itc => (itc s rid nv ov).1) st

/-- The store threaded through a non-failing run of after-delete
interceptors. -/
def deleteChainStore (rid : RowID) (ov : PObj)
    (l : List AfterDeleteItc) (st : KVStore) : KVStore :=
  l.foldl (fun s itc => (itc s rid ov).1) st

theorem runAfterSave_append {pre : List AfterSaveItc} {rid : RowID} {nv : PObj}
    {ov : Option PObj}
    (hpre : ∀ itc ∈ pre, ∀ st, (itc st rid nv ov).2 = none) :
    ∀ (rest : List AfterSaveItc) (i : Nat) (st : KVStore),
    runAfterSave rid nv ov (pre ++ rest) i st
      = runAfterSave rid nv ov rest (i + pre.length)
          (saveChainStore rid nv ov pre st) := by
  induction pre with
  | nil =>
    intro rest i st
    simp [saveChainStore]
  | cons itc pre' ih =>
    intro rest i st
    have h2 := hpre itc (List.mem_cons_self _ _) st
    rcases hp : itc st rid nv ov with ⟨st', e⟩
    rw [hp] at h2
    simp only at h2
    subst h2
    simp only [List.cons_append, runAfterSave, hp]
    simp only [List.append_eq]
    have harith : i + 1 + pre'.length = i + (itc :: pre').length := by
      simp [List.length_cons]
      omega
    rw [ih (fun itc' hm => hpre itc' (List.mem_cons_of_mem _ hm)) rest (i + 1) st',
      harith]
    have hchain : saveChainStore rid nv ov pre' st'
        = saveChainStore rid nv ov (itc :: pre') st := by
      simp [saveChainStore, List.foldl_cons, hp]
    rw [hchain]

theorem runAfterDelete_append {pre : List AfterDeleteItc} {rid : RowID} {ov : PObj}
    (hpre : ∀ itc ∈ pre, ∀ st, (itc st rid ov).2 = none) :
    ∀ (rest : List AfterDeleteItc) (i : Nat) (st : KVStore),
    runAfterDelete rid ov (pre ++ rest) i st
      = runAfterDelete rid ov rest (i + pre.length)
          (deleteChainStore rid ov pre st) := by
  induction pre with
  | nil =>
    intro rest i st
    simp [deleteChainStore]
  | cons itc pre' ih =>
    intro rest i st
    have h2 := hpre itc (List.mem_cons_self _ _) st
    rcases hp : itc st rid ov with ⟨st', e⟩
    rw [hp] at h2
    simp only at h2
    subst h2
    simp only [List.cons_append, runAfterDelete, hp]
    simp only [List.append_eq]
    have harith : i + 1 + pre'.length = i + (itc :: pre').length := by
      simp [List.length_cons]
      omega
    rw [ih (fun itc' hm => hpre itc' (List.mem_cons_of_mem _ hm)) rest (i + 1) st',
      harith]
    have hchain : deleteChainStore rid ov pre' st'
        = deleteChainStore rid ov (itc :: pre') st := by
      simp [deleteChainStore, List.foldl_cons, hp]
    rw [hchain]

/-- A destination whose pointee type (99) is not `t0`'s model type (0). -/
def destWrong : PObj := { isPtr := true, ty := 99, data := 0, valid := none }

/-- C9 counterexample: constructing a builder with a nil marshaling codec
(`cdc = nil`) does NOT abort: `NewTableBuilder` succeeds, so a nil codec is
not a construction-time panic, contrary to the claim. -/
theorem C9_counterexample :
    ∃ b, NewTableBuilder 1 (some obj0) (some ()) none = Except.ok b :=
  ⟨_, rfl⟩

/-- C9 (amended): `NewTableBuilder` panics at construction exactly when the
record prototype is nil or the IndexKeyCodec is nil; a nil marshaling codec
is accepted at construction (its failure is deferred to later use). -/
theorem C9_builder_construction (p : Nat) :
    (∀ idx cdc, NewTableBuilder p none idx cdc
        = Except.error "Model must not be nil") ∧
    (∀ m cdc, NewTableBuilder p (some m) none cdc
        = Except.error "IndexKeyCodec must not be nil") ∧
    (∀ m idx cdc, ∃ b, NewTableBuilder p (some m) (some idx) cdc = Except.ok b) :=
  ⟨fun _ _ => rfl, fun _ _ => rfl, fun _ _ _ => ⟨_, rfl⟩⟩

/-- C8: with both bounds non-nil and `start >= end` lexicographically, both
scans return `ErrArgument` together with the invalid (non-null) iterator,
whose `LoadNext` always fails with `ErrIteratorInvalid` without advancing;
with either bound nil no such error occurs. -/
theorem C8_scan_bound_validation (a : Table) (s : KVStore) :
    (∀ st en, bytesCmp st en ≠ Ordering.lt →
      a.PrefixScan s (some st) (some en) = (TableIterator.invalid, some Err.argument) ∧
      a.ReversePrefixScan s (some st) (some en)
        = (TableIterator.invalid, some Err.argument)) ∧
    (∀ dest, TableIterator.invalid.loadNext s dest
        = (TableIterator.invalid, none, Except.error Err.iteratorInvalid)) ∧
    (∀ (st : RowID) (en : Option RowID),
      (a.PrefixScan s none en).2 = none ∧
      (a.PrefixScan s (some st) none).2 = none ∧
      (a.ReversePrefixScan s none en).2 = none ∧
      (a.ReversePrefixScan s (some st) none).2 = none) := by
  refine ⟨?_, ?_, ?_⟩
  · intro st en h
    constructor
    · simp only [Table.PrefixScan]
      rw [if_pos h]
    · simp only [Table.ReversePrefixScan]
      rw [if_pos h]
  · intro dest
    rfl
  · intro st en
    refine ⟨?_, ?_, ?_, ?_⟩ <;> cases en <;> rfl

/-- C8 witness: concrete instances of the bound-validation theorem. -/
theorem C8_witness :
    t0.PrefixScan [] (some [2]) (some [2]) = (TableIterator.invalid, some Err.argument) ∧
    t0.ReversePrefixScan [] (some [3]) (some [2])
      = (TableIterator.invalid, some Err.argument) ∧
    TableIterator.invalid.loadNext [] dest0
      = (TableIterator.invalid, none, Except.error Err.iteratorInvalid) ∧
    (t0.PrefixScan [] none none).2 = none :=
  ⟨((C8_scan_bound_validation t0 []).1 [2] [2] (by decide)).1,
   ((C8_scan_bound_validation t0 []).1 [3] [2] (by decide)).2,
   (C8_scan_bound_validation t0 []).2.1 dest0,
   ((C8_scan_bound_validation t0 []).2.2 [0] none).1⟩

/-- C7 counterexample: with an empty rowID, `GetOne` into a wrongly-typed
destination returns `ErrArgument`, not `ErrType` — the empty-key check runs
before the type check, so a wrong destination does not ALWAYS produce
TypeError as claimed. -/
theorem C7_counterexample :
    t0.GetOne [] [] destWrong = Except.error Err.argument ∧
    t0.GetOne [] [] destWrong ≠ Except.error Err.typeErr := by
  constructor
  · rfl
  · intro h
    cases h

/-- C7 (amended): for a destination that is not a pointer to the table's
declared record type, `GetOne` with a non-empty rowID always returns
`ErrType` (for an empty rowID the preceding empty-key check returns
`ErrArgument` instead), and `Create`/`Update` given such an object always
return `ErrType`; in every case the result is independent of the store and
no decode is attempted, so the destination is never partially populated. -/
theorem C7_type_safety (a : Table) (dest : PObj)
    (hw : dest.isPtr = false ∨ dest.ty ≠ a.model) :
    (∀ s k, k ≠ [] → a.GetOne s k dest = Except.error Err.typeErr) ∧
    (∀ s k, a.Create s k dest = (s, some Err.typeErr)) ∧
    (∀ s k, a.Update s k dest = (s, some Err.typeErr)) := by
  have hct : assertCorrectType a.model dest = some Err.typeErr := by
    rcases hw with h | h
    · simp [assertCorrectType, h]
    · cases hb : dest.isPtr
      · simp [assertCorrectType, hb]
      · simp [assertCorrectType, hb, Ne.symm h]
  refine ⟨?_, ?_, ?_⟩
  · intro s k hk
    simp only [Table.GetOne, NewTypeSafeRowGetter]
    rw [if_neg (by simpa [List.length_eq_zero] using hk)]
    rw [hct]
  · intro s k
    simp only [Table.Create]
    rw [hct]
  · intro s k
    simp only [Table.Update]
    rw [hct]

/-- C7 witness: the amended type-safety theorem at a concrete wrong
destination. -/
theorem C7_witness :
    t0.GetOne [([1, 2], [5])] [2] destWrong = Except.error Err.typeErr ∧
    t0.Create [] [2] destWrong = ([], some Err.typeErr) ∧
    t0.Update [] [2] destWrong = ([], some Err.typeErr) :=
  ⟨(C7_type_safety t0 destWrong (Or.inr (by decide))).1 [([1, 2], [5])] [2]
      (by decide),
   (C7_type_safety t0 destWrong (Or.inr (by decide))).2.1 [] [2],
   (C7_type_safety t0 destWrong (Or.inr (by decide))).2.2 [] [2]⟩

/-- C4 counterexample: rowID `[1]` is absent from `t0`'s namespace (only
key `[1, 2]` is present, raw `[1, 1, 2]`), yet `Update` SUCCEEDS — the
prefix-range lookup finds the extending key — and writes the absent key,
changing the store, instead of returning NotFoundError and leaving it
unchanged. -/
theorem C4_counterexample :
    t0.Update [([1, 1, 2], [5])] [1] obj0
      = ([([1, 1], [5]), ([1, 1, 2], [5])], none) := by decide

/-- C4 (amended): for every non-empty rowID `k` such that NO key in the
table's namespace has `k` as a prefix, `Update` with a valid, well-typed
record returns `ErrNotFound` and leaves the store completely unchanged (it
returns before the write and before any interceptor runs). -/
theorem C4_no_implicit_creation (a : Table) (s : KVStore) (k : RowID)
    (nv : PObj) (hk : k ≠ []) (ht : assertCorrectType a.model nv = none)
    (hv : assertValid nv = none) (habsent : nsProbe a.pfx s k = []) :
    a.Update s k nv = (s, some Err.notFound) := by
  simp only [Table.Update]
  rw [ht, hv]
  have hget : a.GetOne s k (freshModelDest a.model) = Except.error Err.notFound := by
    simp only [Table.GetOne, NewTypeSafeRowGetter]
    rw [if_neg (by simpa [List.length_eq_zero] using hk)]
    have hfresh : assertCorrectType a.model (freshModelDest a.model) = none := by
      simp [assertCorrectType, freshModelDest]
    rw [hfresh, habsent]
  rw [hget]

/-- C4 witness: `Update` on an empty store returns NotFound unchanged. -/
theorem C4_witness : t0.Update [] [3] obj0 = ([], some Err.notFound) :=
  C4_no_implicit_creation t0 [] [3] obj0 (by decide) (by decide) (by decide)
    (by decide)

/-- C2 counterexample: `Create` with a zero-length rowID does NOT return an
ArgumentError/EmptyKeyError — it succeeds and mutates the store, writing the
record under the empty rowID (raw key = the prefix byte alone). -/
theorem C2_counterexample : t0.Create [] [] obj0 = ([([1], [5])], none) := by
  decide

/-- C2 (amended): `GetOne`, `Update` and `Delete` with a zero-length rowID
return `ErrArgument` without touching the store; but `Has` with an empty
rowID probes the WHOLE namespace (returning whether the table is non-empty)
and `Create` performs no empty-key check at all: with no interceptors it
writes the record under the empty rowID and succeeds. -/
theorem C2_empty_key_rejection (a : Table) (s : KVStore) :
    (∀ dest, a.GetOne s [] dest = Except.error Err.argument) ∧
    (∀ nv, assertCorrectType a.model nv = none → assertValid nv = none →
      a.Update s [] nv = (s, some Err.argument)) ∧
    (a.Delete s [] = (s, some Err.argument)) ∧
    (a.Has s [] = !(nsProbe a.pfx s []).isEmpty) ∧
    (∀ obj v, assertCorrectType a.model obj = none → assertValid obj = none →
      a.cdc.marshal obj.data = Except.ok v → a.afterSave = [] →
      a.Create s [] obj = (storeSet s [a.pfx] v, none)) := by
  have hget : ∀ dest, a.GetOne s [] dest = Except.error Err.argument := by
    intro dest
    simp [Table.GetOne, NewTypeSafeRowGetter]
  refine ⟨hget, ?_, ?_, rfl, ?_⟩
  · intro nv ht hv
    simp only [Table.Update]
    rw [ht, hv, hget (freshModelDest a.model)]
  · simp only [Table.Delete]
    rw [hget (freshModelDest a.model)]
  · intro obj v ht hv hm hsave
    simp only [Table.Create]
    rw [ht, hv, hm, hsave]
    simp [runAfterSave]

/-- C2 witness: concrete empty-key behaviour of each operation on `t0`. -/
theorem C2_witness :
    t0.GetOne [([1, 2], [5])] [] dest0 = Except.error Err.argument ∧
    t0.Update [([1, 2], [5])] [] obj0 = ([([1, 2], [5])], some Err.argument) ∧
    t0.Delete [([1, 2], [5])] [] = ([([1, 2], [5])], some Err.argument) ∧
    t0.Has [([1, 2], [5])] [] = true ∧
    t0.Create [] [] obj0 = ([([1], [5])], none) :=
  ⟨(C2_empty_key_rejection t0 [([1, 2], [5])]).1 dest0,
   (C2_empty_key_rejection t0 [([1, 2], [5])]).2.1 obj0 (by decide) (by decide),
   (C2_empty_key_rejection t0 [([1, 2], [5])]).2.2.1,
   (C2_empty_key_rejection t0 [([1, 2], [5])]).2.2.2.1,
   (C2_empty_key_rejection t0 []).2.2.2.2 obj0 [5] (by decide) (by decide)
     (by rfl) (by rfl)⟩

/-- A registered after-save interceptor that never fails but deletes the
just-written row through the raw store it receives. -/
def itcDeleteRow : AfterSaveItc := fun st rid _ _ => (storeDelete st ([1] ++ rid), none)

/-- `t0` with `itcDeleteRow` registered. -/
def t1 : Table :=
  { model := 0, pfx := 1, afterSave := [itcDeleteRow], afterDelete := [], cdc := cdc0 }

/-- C1 counterexample: with a registered interceptor that never fails (so
the claim's assumption holds) but mutates the raw store it receives,
`Create` succeeds yet the following `GetOne` does not return the record:
the round trip fails. -/
theorem C1_counterexample :
    t1.Create [] [2] obj0 = ([], none) ∧
    t1.GetOne [] [2] dest0 = Except.error Err.notFound := by
  constructor
  · decide
  · decide

/-- C1 (amended): round trip. For every valid well-typed record and
non-empty rowID, on a sorted store, if `Create` succeeds then `GetOne`
returns exactly the created record's payload — assuming the codec's
`Unmarshal` inverts `Marshal` and the registered after-save interceptors do
not fail AND leave the store unchanged (in particular when none are
registered); an interceptor may otherwise rewrite the row through the raw
store it receives. -/
theorem C1_create_getOne_roundtrip (a : Table) (s s1 : KVStore) (k : RowID)
    (obj dest : PObj) (hsorted : StoreSorted s) (hk : k ≠ [])
    (hdest : assertCorrectType a.model dest = none)
    (hitc : ∀ itc ∈ a.afterSave, ∀ st rid nv ov, itc st rid nv ov = (st, none))
    (hrt : ∀ d bs, a.cdc.marshal d = Except.ok bs → a.cdc.unmarshal bs = Except.ok d)
    (hc : a.Create s k obj = (s1, none)) :
    a.GetOne s1 k dest = Except.ok obj.data := by
  simp only [Table.Create] at hc
  cases ht : assertCorrectType a.model obj with
  | some e => rw [ht] at hc; simp at hc
  | none =>
  rw [ht] at hc
  cases hv : assertValid obj with
  | some e => rw [hv] at hc; simp at hc
  | none =>
  rw [hv] at hc
  cases hm : a.cdc.marshal obj.data with
  | error e => rw [hm] at hc; simp at hc
  | ok v =>
  rw [hm] at hc
  dsimp only at hc
  rw [runAfterSave_preserving (fun itc hmem st => hitc itc hmem st k obj none) 0
    (storeSet s ([a.pfx] ++ k) v)] at hc
  have hs1 : s1 = storeSet s ([a.pfx] ++ k) v := by
    have := congrArg Prod.fst hc
    simpa using this.symm
  subst hs1
  simp only [Table.GetOne, NewTypeSafeRowGetter]
  rw [if_neg (by simpa [List.length_eq_zero] using hk)]
  rw [hdest]
  have hhead := nsProbe_storeSet_head hsorted a.pfx k v
  cases hp : nsProbe a.pfx (storeSet s ([a.pfx] ++ k) v) k with
  | nil => rw [hp] at hhead; simp at hhead
  | cons e tail =>
    rw [hp] at hhead
    simp only [List.head?_cons, Option.some.injEq] at hhead
    rw [hhead]
    exact hrt obj.data v hm

/-- C1 witness: the round trip at a concrete table, record and store. -/
theorem C1_witness : t0.GetOne [([1, 2], [5])] [2] dest0 = Except.ok 5 :=
  C1_create_getOne_roundtrip t0 [] [([1, 2], [5])] [2] obj0 dest0
    (by simp [StoreSorted]) (by decide) (by decide)
    (by intro itc hmem; simp [t0] at hmem)
    (by
      intro d bs h
      have hb : bs = [d] := by
        simpa [t0, cdc0] using h.symm
      rw [hb]
      rfl)
    (by decide)

/-- C10: prefix-match lookup. On a sorted store, whenever some raw key in
the table's namespace extends `[a.pfx] ++ k` (i.e. some stored rowID has
`k` as a not necessarily proper prefix), `Has` returns true and `GetOne`
with a well-typed destination decodes the value stored under the
lexicographically smallest such key — the first entry of the range probe
over `PrefixRange(k)` — not only when key `k` itself exists. -/
theorem C10_prefix_match_lookup (a : Table) (s : KVStore) (k : RowID)
    (dest : PObj) (hsorted : StoreSorted s) (hk : k ≠ [])
    (hdest : assertCorrectType a.model dest = none)
    (hm : s.filter (fun e => ([a.pfx] ++ k).isPrefixOf e.1) ≠ []) :
    a.Has s k = true ∧
    ∃ e, (s.filter (fun e => ([a.pfx] ++ k).isPrefixOf e.1)).head? = some e ∧
      a.GetOne s k dest = a.cdc.unmarshal e.2 ∧
      ∀ f ∈ s.filter (fun e => ([a.pfx] ++ k).isPrefixOf e.1),
        bytesLt f.1 e.1 = false := by
  cases hl : s.filter (fun e => ([a.pfx] ++ k).isPrefixOf e.1) with
  | nil => exact absurd hl hm
  | cons e tail =>
    have hprobe : nsProbe a.pfx s k = (e.1.drop 1, e.2) :: tail.map
        (fun f => (f.1.drop 1, f.2)) := by
      unfold nsProbe
      rw [hl]
      rfl
    refine ⟨?_, e, ?_, ?_, ?_⟩
    · simp [Table.Has, hprobe]
    · rfl
    · simp only [Table.GetOne, NewTypeSafeRowGetter]
      rw [if_neg (by simpa [List.length_eq_zero] using hk)]
      rw [hdest, hprobe]
    · have hpw : List.Pairwise (fun a b => bytesLt a.1 b.1 = true)
          (s.filter (fun e => ([a.pfx] ++ k).isPrefixOf e.1)) :=
        List.Pairwise.filter _ hsorted
      rw [hl] at hpw
      rw [List.pairwise_cons] at hpw
      intro f hf
      rcases List.mem_cons.mp hf with rfl | hf'
      · exact bytesLt_irrefl f.1
      · exact bytesLt_asymm (hpw.1 f hf')

/-- C10 witness: key `[2]` itself is absent but `[2, 3]` extends it; `Has`
is true and `GetOne` decodes the value under the smallest extending key. -/
theorem C10_witness :
    t0.Has [([1, 2], [9]), ([1, 2, 3], [5])] [2] = true ∧
    ∃ e, (([([1, 2], [9]), ([1, 2, 3], [5])] : KVStore).filter
        (fun e => ([1, 2] : RowID).isPrefixOf e.1)).head? = some e ∧
      t0.GetOne [([1, 2], [9]), ([1, 2, 3], [5])] [2] dest0
        = t0.cdc.unmarshal e.2 ∧
      ∀ f ∈ ([([1, 2], [9]), ([1, 2, 3], [5])] : KVStore).filter
          (fun e => ([1, 2] : RowID).isPrefixOf e.1),
        bytesLt f.1 e.1 = false :=
  C10_prefix_match_lookup t0 [([1, 2], [9]), ([1, 2, 3], [5])] [2] dest0
    (by simp [StoreSorted]; decide) (by decide) (by decide) (by decide)

/-- C6 counterexample: the namespace already holds key `[1, 2]` (raw
`[1, 1, 2]`), which has rowID `[1]` as a proper prefix. `Create([1], r)`
succeeds, `Delete([1])` succeeds (removing exactly key `[1]`), yet `Has([1])`
is still true and `GetOne([1], _)` still succeeds, because the prefix-range
lookup matches the leftover extending key. -/
theorem C6_counterexample :
    t0.Create [([1, 1, 2], [5])] [1] obj0
      = ([([1, 1], [5]), ([1, 1, 2], [5])], none) ∧
    t0.Delete [([1, 1], [5]), ([1, 1, 2], [5])] [1] = ([([1, 1, 2], [5])], none) ∧
    t0.Has [([1, 1, 2], [5])] [1] = true ∧
    t0.GetOne [([1, 1, 2], [5])] [1] dest0 = Except.ok 5 := by
  refine ⟨by decide, by decide, by decide, by decide⟩

/-- C6 (amended): delete removes. For a table with no registered
interceptors and a non-empty rowID `k` such that no OTHER key in the
table's namespace extends `k`, after a successful `Create(k, r)` followed
by a successful `Delete(k)`, `Has(k)` is false and `GetOne(k, dest)` (for a
well-typed destination) returns `ErrNotFound`. -/
theorem C6_delete_removes (a : Table) (s s1 s2 : KVStore) (k : RowID)
    (obj dest : PObj) (hk : k ≠ [])
    (hdest : assertCorrectType a.model dest = none)
    (hsave : a.afterSave = []) (hdel : a.afterDelete = [])
    (hext : ∀ e ∈ s, ([a.pfx] ++ k).isPrefixOf e.1 = true → e.1 = [a.pfx] ++ k)
    (hc : a.Create s k obj = (s1, none)) (hd : a.Delete s1 k = (s2, none)) :
    a.Has s2 k = false ∧ a.GetOne s2 k dest = Except.error Err.notFound := by
  simp only [Table.Create] at hc
  cases ht : assertCorrectType a.model obj with
  | some e => rw [ht] at hc; simp at hc
  | none =>
  rw [ht] at hc
  cases hv : assertValid obj with
  | some e => rw [hv] at hc; simp at hc
  | none =>
  rw [hv] at hc
  cases hmar : a.cdc.marshal obj.data with
  | error e => rw [hmar] at hc; simp at hc
  | ok v =>
  rw [hmar, hsave] at hc
  dsimp only [runAfterSave] at hc
  have hs1 : s1 = storeSet s ([a.pfx] ++ k) v := by
    have := congrArg Prod.fst hc
    simpa using this.symm
  subst hs1
  simp only [Table.Delete] at hd
  cases hget : a.GetOne (storeSet s ([a.pfx] ++ k) v) k (freshModelDest a.model) with
  | error e => rw [hget] at hd; simp at hd
  | ok od =>
  rw [hget, hdel] at hd
  dsimp only [runAfterDelete] at hd
  have hs2 : s2 = storeDelete (storeSet s ([a.pfx] ++ k) v) ([a.pfx] ++ k) := by
    have := congrArg Prod.fst hd
    simpa using this.symm
  subst hs2
  have hfilter : (storeDelete (storeSet s ([a.pfx] ++ k) v) ([a.pfx] ++ k)).filter
      (fun e => ([a.pfx] ++ k).isPrefixOf e.1) = [] := by
    rw [List.filter_eq_nil_iff]
    intro e he
    simp only [storeDelete, List.mem_filter] at he
    obtain ⟨hmem, hne⟩ := he
    have hne' : e.1 ≠ [a.pfx] ++ k := by
      intro hcontra
      rw [hcontra] at hne
      simp at hne
    intro hpf
    rcases mem_storeSet hmem with heq | hmem'
    · apply hne'
      rw [heq]
    · exact hne' (hext e hmem' hpf)
  have hprobe : nsProbe a.pfx (storeDelete (storeSet s ([a.pfx] ++ k) v)
      ([a.pfx] ++ k)) k = [] := by
    unfold nsProbe
    rw [hfilter]
    rfl
  constructor
  · simp only [Table.Has]
    rw [hprobe]
    rfl
  · simp only [Table.GetOne, NewTypeSafeRowGetter]
    rw [if_neg (by simpa [List.length_eq_zero] using hk)]
    rw [hdest, hprobe]

/-- C6 witness: the amended theorem on an initially empty store. -/
theorem C6_witness :
    t0.Has [] [2] = false ∧ t0.GetOne [] [2] dest0 = Except.error Err.notFound :=
  C6_delete_removes t0 [] [([1, 2], [5])] [] [2] obj0 dest0 (by decide)
    (by decide) rfl rfl (by intro e he; cases he) (by decide) (by decide)

/-- C5: interceptor ordering, abort, and no rollback. If the registered
chain splits as `pre ++ bad :: post` where every interceptor in `pre`
never fails and `bad` fails on the store it receives, then `Create`,
`Update` and `Delete` return exactly `bad`'s error wrapped with its 0-based
registration index `pre.length`; the final store is the one `bad` produced
from the store threaded through `pre` STARTING FROM the already-applied raw
mutation (write or delete) — so the mutation is not rolled back — and the
result does not mention `post`: interceptors after the first failure never
run. -/
theorem C5_interceptor_ordering (a : Table) :
    (∀ (s : KVStore) (k : RowID) (obj : PObj) (v : List Nat)
       (pre post : List AfterSaveItc) (bad : AfterSaveItc),
      a.afterSave = pre ++ bad :: post →
      (∀ itc ∈ pre, ∀ st rid nv ov, (itc st rid nv ov).2 = none) →
      assertCorrectType a.model obj = none → assertValid obj = none →
      a.cdc.marshal obj.data = Except.ok v →
      ∀ s2 e, bad (saveChainStore k obj none pre (storeSet s ([a.pfx] ++ k) v))
          k obj none = (s2, some e) →
      a.Create s k obj = (s2, some (Err.interceptorFailed pre.length e))) ∧
    (∀ (s : KVStore) (k : RowID) (nv : PObj) (od : Nat) (v : List Nat)
       (pre post : List AfterSaveItc) (bad : AfterSaveItc),
      a.afterSave = pre ++ bad :: post →
      (∀ itc ∈ pre, ∀ st rid nvx ov, (itc st rid nvx ov).2 = none) →
      assertCorrectType a.model nv = none → assertValid nv = none →
      a.GetOne s k (freshModelDest a.model) = Except.ok od →
      a.cdc.marshal nv.data = Except.ok v →
      ∀ s2 e, bad (saveChainStore k nv (some { freshModelDest a.model with data := od })
          pre (storeSet s ([a.pfx] ++ k) v)) k nv
          (some { freshModelDest a.model with data := od }) = (s2, some e) →
      a.Update s k nv = (s2, some (Err.interceptorFailed pre.length e))) ∧
    (∀ (s : KVStore) (k : RowID) (od : Nat)
       (pre post : List AfterDeleteItc) (bad : AfterDeleteItc),
      a.afterDelete = pre ++ bad :: post →
      (∀ itc ∈ pre, ∀ st rid ov, (itc st rid ov).2 = none) →
      a.GetOne s k (freshModelDest a.model) = Except.ok od →
      ∀ s2 e, bad (deleteChainStore k { freshModelDest a.model with data := od }
          pre (storeDelete s ([a.pfx] ++ k))) k
          { freshModelDest a.model with data := od } = (s2, some e) →
      a.Delete s k = (s2, some (Err.interceptorFailed pre.length e))) := by
  refine ⟨?_, ?_, ?_⟩
  · intro s k obj v pre post bad hsplit hpre ht hv hm s2 e hbad
    simp only [Table.Create]
    rw [ht, hv, hm]
    dsimp only
    rw [hsplit]
    rw [runAfterSave_append (fun itc hmem st => hpre itc hmem st k obj none)
      (bad :: post) 0 (storeSet s ([a.pfx] ++ k) v)]
    dsimp only [runAfterSave]
    rw [hbad]
    simp
  · intro s k nv od v pre post bad hsplit hpre ht hv hget hm s2 e hbad
    simp only [Table.Update]
    rw [ht, hv, hget, hm]
    dsimp only
    rw [hsplit]
    rw [runAfterSave_append
      (fun itc hmem st =>
        hpre itc hmem st k nv (some { freshModelDest a.model with data := od }))
      (bad :: post) 0 (storeSet s ([a.pfx] ++ k) v)]
    dsimp only [runAfterSave]
    rw [hbad]
    simp
  · intro s k od pre post bad hsplit hpre hget s2 e hbad
    simp only [Table.Delete]
    rw [hget]
    dsimp only
    rw [hsplit]
    rw [runAfterDelete_append
      (fun itc hmem st => hpre itc hmem st k { freshModelDest a.model with data := od })
      (bad :: post) 0 (storeDelete s ([a.pfx] ++ k))]
    dsimp only [runAfterDelete]
    rw [hbad]
    simp

/-- An after-save interceptor that succeeds without touching the store. -/
def itcNoop : AfterSaveItc := fun st _ _ _ => (st, none)

/-- An after-save interceptor that always fails. -/
def itcFail : AfterSaveItc := fun st _ _ _ => (st, some (Err.custom 7))

/-- An after-save interceptor whose store mutation would be visible. -/
def itcLoud : AfterSaveItc := fun st _ _ _ => (storeSet st [9, 9] [1], none)

/-- An after-delete interceptor that succeeds without touching the store. -/
def itcDelNoop : AfterDeleteItc := fun st _ _ => (st, none)

/-- An after-delete interceptor that always fails. -/
def itcDelFail : AfterDeleteItc := fun st _ _ => (st, some (Err.custom 3))

/-- `t0` with chains `[itcNoop, itcFail, itcLoud]` and
`[itcDelNoop, itcDelFail]`. -/
def t2 : Table :=
  { model := 0, pfx := 1, afterSave := [itcNoop, itcFail, itcLoud],
    afterDelete := [itcDelNoop, itcDelFail], cdc := cdc0 }

/-- C5 witness: on `t2`, each mutating operation stops at the failing
interceptor (index 1), keeps the raw mutation, and never runs `itcLoud`. -/
theorem C5_witness :
    t2.Create [] [2] obj0
      = ([([1, 2], [5])], some (Err.interceptorFailed 1 (Err.custom 7))) ∧
    t2.Update [([1, 2], [9])] [2] obj0
      = ([([1, 2], [5])], some (Err.interceptorFailed 1 (Err.custom 7))) ∧
    t2.Delete [([1, 2], [9])] [2]
      = ([], some (Err.interceptorFailed 1 (Err.custom 3))) :=
  ⟨(C5_interceptor_ordering t2).1 [] [2] obj0 [5] [itcNoop] [itcLoud] itcFail rfl
      (by
        intro itc hmem st rid nv ov
        simp only [List.mem_singleton] at hmem
        subst hmem
        rfl)
      (by decide) (by decide) rfl [([1, 2], [5])] (Err.custom 7) rfl,
   (C5_interceptor_ordering t2).2.1 [([1, 2], [9])] [2] obj0 9 [5] [itcNoop]
      [itcLoud] itcFail rfl
      (by
        intro itc hmem st rid nvx ov
        simp only [List.mem_singleton] at hmem
        subst hmem
        rfl)
      (by decide) (by decide) rfl rfl [([1, 2], [5])] (Err.custom 7) rfl,
   (C5_interceptor_ordering t2).2.2 [([1, 2], [9])] [2] 9 [itcDelNoop] []
      itcDelFail rfl
      (by
        intro itc hmem st rid ov
        simp only [List.mem_singleton] at hmem
        subst hmem
        rfl)
      rfl [] (Err.custom 3) rfl⟩

/-- A store shared by two tables: raw key `[1, 1]` belongs to `t0`'s
namespace (prefix byte 1, rowID `[1]`), raw key `[2, 5]` to another table's
namespace (prefix byte 2). -/
def sMixed : KVStore := [([1, 1], [7]), ([2, 5], [9])]

/-- C3: code bug. `PrefixScan`/`ReversePrefixScan` build their cursor from
the RAW store (`store.Iterator(start, end)`), not from the table's
namespace: `t0.PrefixScan(nil, nil)` visits the other table's raw key
`[2, 5]`, which does not carry `t0`'s prefix, and its first `LoadNext`
cannot even load `t0`'s own row because the raw key `[1, 1]` is fed back as
a rowID into the namespaced row getter (probing `[1] ++ [1, 1]`), yielding
`ErrNotFound`. -/
theorem C3_scan_not_namespace_confined :
    iterKeys (t0.PrefixScan sMixed none none).1 = [[1, 1], [2, 5]] ∧
    (([1] : RowID).isPrefixOf [2, 5] = false) ∧
    ((t0.PrefixScan sMixed none none).1.loadNext sMixed dest0).2
      = (some [1, 1], Except.error Err.notFound) ∧
    iterKeys (t0.ReversePrefixScan sMixed none none).1 = [[2, 5], [1, 1]] := by
  refine ⟨by decide, by decide, by decide, by decide⟩
